import Mathlib

/-!
Verification of the protocol core of a Minecraft reverse proxy
(`stupid-mc-proxy`): the variable-length integer codec, packet framing,
status-JSON rewriting, login forwarding, and the source-IP pool.

Byte streams are modelled as `List Nat` (each element a `u8`, masked with
`% 256` at the point a byte is consumed, mirroring `read_exact` into a `u8`
buffer).  Machine integers are modelled as `Nat` bit patterns together with
explicit two's-complement reinterpretation (`patToInt` / `intToPat`).
Fallible Rust functions returning `anyhow::Result` are modelled with
`Except MCErr`.
-/

/-- Error classes of the protocol code: one constructor per `bail!`/`ensure!`
site (plus `eof` for `read_exact` hitting end of input and `intOverflow` for
failing `i32::try_from` conversions). -/
inductive MCErr where
  | eof
  | varIntTooBig
  | varLongTooBig
  | frameTooBig
  | negLen
  | badUtf8
  | wrongPacketId
  | unsupportedNextState
  | outOfSourceIps
  | notAnObject
  | noDescription
  | badDescriptionShape
  | badExtraShape
  | intOverflow
  deriving DecidableEq, Repr

instance {ε α : Type} [DecidableEq ε] [DecidableEq α] : DecidableEq (Except ε α) := fun x y =>
  match x, y with
  | .ok a, .ok b => if h : a = b then .isTrue (by rw [h]) else .isFalse (by simp [h])
  | .error a, .error b => if h : a = b then .isTrue (by rw [h]) else .isFalse (by simp [h])
  | .ok _, .error _ => .isFalse (by simp)
  | .error _, .ok _ => .isFalse (by simp)

/-- Reinterpret a `w`-bit unsigned pattern as a two's-complement signed
integer (Rust `as i32` / `as i64` on a same-width unsigned value). -/
def patToInt (w n : Nat) : Int :=
  if n < 2 ^ (w - 1) then (n : Int) else (n : Int) - 2 ^ w

/-- The `w`-bit pattern of a signed integer (Rust `v as u32` / `v as u64`,
also the sign-extending `i32 as usize`). -/
def intToPat (w : Nat) (v : Int) : Nat := (v % 2 ^ w).toNat

/-- Loop body of `VarInt::read_as_mc_type` / `VarLong::read_as_mc_type`
(src/protocol/types.rs).  One byte is consumed per iteration; its low 7 bits
are shifted into the accumulator by `7 * num_read` (shifts wrap modulo the
accumulator width, as compiled Rust shifts do), the continuation bit is the
byte's high bit, and after `maxBytes` bytes a further iteration fails with
the "too big" error.  Returns the accumulated pattern and the unconsumed
rest of the stream. -/
def readVarCore (width maxBytes : Nat) (errBig : MCErr) :
    List Nat → Nat → Nat → Except MCErr (Nat × List Nat)
  | [], _, _ => .error .eof
  | b₀ :: rest, numRead, result =>
    let b := b₀ % 256
    let value := b % 128
    let result' := (result ||| value <<< (7 * numRead % width)) % 2 ^ width
    if maxBytes < numRead + 1 then .error errBig
    else if b < 128 then .ok (result', rest)
    else readVarCore width maxBytes errBig rest (numRead + 1) result'

/-- `VarInt::read_as_mc_type`: decode a VarInt (≤ 5 bytes) from the stream,
returning the decoded `i32` and the unconsumed rest. -/
def readVarInt (input : List Nat) : Except MCErr (Int × List Nat) :=
  (readVarCore 32 5 .varIntTooBig input 0 0).map fun p => (patToInt 32 p.1, p.2)

/-- `VarLong::read_as_mc_type`: decode a VarLong (≤ 10 bytes) from the
stream, returning the decoded `i64` and the unconsumed rest. -/
def readVarLong (input : List Nat) : Except MCErr (Int × List Nat) :=
  (readVarCore 64 10 .varLongTooBig input 0 0).map fun p => (patToInt 64 p.1, p.2)

/-- Loop body of `VarInt::write_as_mc_type` / `VarLong::write_as_mc_type`
over the unsigned bit pattern: emit 7-bit groups, continuation bit set on
all but the final byte.  The Rust loop terminates because `value >>= 7`
strictly decreases; `fuel` bounds the iteration count (5 for `u32`, 10 for
`u64` suffice, see `writeVarNumFuel_length`). -/
def writeVarNumFuel : Nat → Nat → List Nat
  | 0, value => [value % 128]
  | fuel + 1, value =>
    if value < 128 then [value]
    else (value % 128 + 128) :: writeVarNumFuel fuel (value / 128)

/-- `VarInt::write_as_mc_type`: the value's bit pattern is treated as
unsigned (`self.0 as u32`) and emitted in 7-bit groups. -/
def VarInt.write (v : Int) : List Nat := writeVarNumFuel 5 (intToPat 32 v)

/-- `VarLong::write_as_mc_type`: the value's bit pattern is treated as
unsigned (`self.0 as u64`) and emitted in 7-bit groups. -/
def VarLong.write (v : Int) : List Nat := writeVarNumFuel 10 (intToPat 64 v)

theorem lor_lt_two_pow' {x y n : Nat} (hx : x < 2 ^ n) (hy : y < 2 ^ n) :
    x ||| y < 2 ^ n :=
  Nat.bitwise_lt hx hy

theorem lor_mod_two_pow_left (X Y w : Nat) :
    (X % 2 ^ w ||| Y) % 2 ^ w = (X ||| Y) % 2 ^ w := by
  apply Nat.eq_of_testBit_eq
  intro i
  simp only [Nat.testBit_mod_two_pow, Nat.testBit_lor]
  by_cases h : i < w <;> simp [h]

theorem shiftLeft_lor_split (n s : Nat) :
    (n % 128) <<< s ||| (n / 128) <<< (s + 7) = n <<< s := by
  apply Nat.eq_of_testBit_eq
  intro i
  have h128 : (128 : Nat) = 2 ^ 7 := by norm_num
  rw [show n / 128 = n >>> 7 by rw [Nat.shiftRight_eq_div_pow, h128]]
  simp only [Nat.testBit_lor, Nat.testBit_shiftLeft, Nat.testBit_shiftRight, h128,
    Nat.testBit_mod_two_pow, ge_iff_le]
  by_cases h1 : s ≤ i
  · by_cases h2 : s + 7 ≤ i
    · have hge : ¬ i - s < 7 := by omega
      have harith : 7 + (i - (s + 7)) = i - s := by omega
      simp [h1, h2, hge, harith]
    · have hlt : i - s < 7 := by omega
      simp [h1, h2, hlt]
  · have h2 : ¬ s + 7 ≤ i := by omega
    simp [h1, h2]

/-- Writing `fuel` 7-bit groups of `n` reaches the base case exactly when
`n < 128 ^ fuel`, producing at most `fuel` bytes. -/
theorem writeVarNumFuel_length {fuel n : Nat} (hf : 0 < fuel) (hn : n < 128 ^ fuel) :
    (writeVarNumFuel fuel n).length ≤ fuel := by
  induction fuel generalizing n with
  | zero => omega
  | succ fuel ih =>
    rw [writeVarNumFuel]
    by_cases h : n < 128
    · simp [h]
    · rw [if_neg h]
      have hfuel : 0 < fuel := by
        rcases Nat.eq_zero_or_pos fuel with h0 | h0
        · subst h0; simp at hn; omega
        · exact h0
      have hdiv : n / 128 < 128 ^ fuel := by
        rw [Nat.div_lt_iff_lt_mul (by norm_num)]
        calc n < 128 ^ (fuel + 1) := hn
        _ = 128 ^ fuel * 128 := by ring
      simpa using ih hfuel hdiv

/-- Core round-trip: running the read loop of the variable-length codec on the
written 7-bit groups of `n` (followed by arbitrary `rest`) succeeds and ORs
`n <<< (7 * k)` into the accumulator, leaving `rest` unconsumed. -/
theorem readVarCore_writeVarNumFuel (width maxBytes : Nat) (errBig : MCErr)
    (hwm : 7 * (maxBytes - 1) < width) :
    ∀ (fuel n k acc : Nat) (rest : List Nat),
      0 < fuel → n < 128 ^ fuel → k + fuel ≤ maxBytes → acc < 2 ^ (7 * k) →
      readVarCore width maxBytes errBig (writeVarNumFuel fuel n ++ rest) k acc =
        .ok ((acc ||| n <<< (7 * k)) % 2 ^ width, rest) := by
  intro fuel
  induction fuel with
  | zero => omega
  | succ fuel ih =>
    intro n k acc rest _ hn hk hacc
    have hkw : 7 * k < width := by
      have : k ≤ maxBytes - 1 := by omega
      calc 7 * k ≤ 7 * (maxBytes - 1) := by omega
      _ < width := hwm
    by_cases h : n < 128
    · rw [writeVarNumFuel, if_pos h]
      rw [List.cons_append, readVarCore]
      have hb : n % 256 = n := Nat.mod_eq_of_lt (by omega)
      have hbail : ¬ maxBytes < k + 1 := by omega
      simp only [hb, if_neg hbail, if_pos h, Nat.mod_eq_of_lt h,
        Nat.mod_eq_of_lt hkw, List.nil_append]
    · rw [writeVarNumFuel, if_neg h]
      rw [List.cons_append, readVarCore]
      have hfuel : 0 < fuel := by
        rcases Nat.eq_zero_or_pos fuel with h0 | h0
        · subst h0; simp at hn; omega
        · exact h0
      have hb : (n % 128 + 128) % 256 = n % 128 + 128 := by
        have := Nat.mod_lt n (show 0 < 128 by norm_num)
        omega
      have hbail : ¬ maxBytes < k + 1 := by omega
      have hcont : ¬ n % 128 + 128 < 128 := by omega
      have hval : (n % 128 + 128) % 128 = n % 128 := by omega
      simp only [hb, if_neg hbail, if_neg hcont, hval, Nat.mod_eq_of_lt hkw]
      have hdiv : n / 128 < 128 ^ fuel := by
        rw [Nat.div_lt_iff_lt_mul (by norm_num)]
        calc n < 128 ^ (fuel + 1) := hn
        _ = 128 ^ fuel * 128 := by ring
      have hacc' : (acc ||| (n % 128) <<< (7 * k)) % 2 ^ width < 2 ^ (7 * (k + 1)) := by
        have h1 : acc < 2 ^ (7 * k + 7) :=
          lt_of_lt_of_le hacc (Nat.pow_le_pow_right (by norm_num) (by omega))
        have h2 : (n % 128) <<< (7 * k) < 2 ^ (7 * k + 7) := by
          have hm : n % 128 < 2 ^ 7 := by
            have := Nat.mod_lt n (show 0 < 128 by norm_num); norm_num; omega
          calc (n % 128) <<< (7 * k) < 2 ^ (7 + 7 * k) := Nat.shiftLeft_lt hm
          _ = 2 ^ (7 * k + 7) := by ring_nf
        have h3 : acc ||| (n % 128) <<< (7 * k) < 2 ^ (7 * k + 7) := lor_lt_two_pow' h1 h2
        calc (acc ||| (n % 128) <<< (7 * k)) % 2 ^ width ≤ acc ||| (n % 128) <<< (7 * k) :=
          Nat.mod_le _ _
        _ < 2 ^ (7 * k + 7) := h3
        _ = 2 ^ (7 * (k + 1)) := by ring_nf
      rw [ih (n / 128) (k + 1) _ rest hfuel hdiv (by omega) hacc']
      congr 2
      rw [lor_mod_two_pow_left, Nat.lor_assoc]
      congr 1
      have : 7 * (k + 1) = 7 * k + 7 := by ring
      rw [this, shiftLeft_lor_split]

theorem intToPat_lt (w : Nat) (v : Int) (hw : 0 < w) : intToPat w v < 2 ^ w := by
  unfold intToPat
  have h2 : (0 : Int) < 2 ^ w := by positivity
  have h1 : v % 2 ^ w < 2 ^ w := Int.emod_lt_of_pos v h2
  have h0 : (0 : Int) ≤ v % 2 ^ w := Int.emod_nonneg v (by positivity)
  have hcast : ((2 : Int) ^ w) = ((2 ^ w : Nat) : Int) := by push_cast; ring
  omega

theorem patToInt_intToPat {w : Nat} {v : Int} (hw : 0 < w)
    (hlo : -2 ^ (w - 1) ≤ v) (hhi : v < 2 ^ (w - 1)) :
    patToInt w (intToPat w v) = v := by
  unfold patToInt intToPat
  have hsplit : (2 : Int) ^ w = 2 ^ (w - 1) * 2 := by
    rw [← pow_succ]
    congr 1
    omega
  have h2 : (0 : Int) < 2 ^ w := by positivity
  have h1 : v % 2 ^ w < 2 ^ w := Int.emod_lt_of_pos v h2
  have h0 : (0 : Int) ≤ v % 2 ^ w := Int.emod_nonneg v (by positivity)
  have hcast : ((2 : Int) ^ (w - 1)) = ((2 ^ (w - 1) : Nat) : Int) := by push_cast; ring
  rcases le_or_lt 0 v with hv | hv
  · have hid : v % 2 ^ w = v := Int.emod_eq_of_lt hv (by omega)
    rw [hid]
    have hvlt : v.toNat < 2 ^ (w - 1) := by omega
    rw [if_pos hvlt]
    omega
  · have heq : v % 2 ^ w = v + 2 ^ w := by
      have hmod : (v + 2 ^ w * 1) % 2 ^ w = v % 2 ^ w :=
        Int.add_mul_emod_self_left v (2 ^ w) 1
      rw [mul_one] at hmod
      rw [← hmod]
      exact Int.emod_eq_of_lt (by omega) (by omega)
    rw [heq]
    have hvge : ¬ (v + 2 ^ w).toNat < 2 ^ (w - 1) := by omega
    rw [if_neg hvge]
    omega

theorem patToInt_range {w n : Nat} (hw : 0 < w) (hn : n < 2 ^ w) :
    -2 ^ (w - 1) ≤ patToInt w n ∧ patToInt w n < 2 ^ (w - 1) := by
  unfold patToInt
  have hsplit : (2 : Int) ^ w = 2 ^ (w - 1) * 2 := by
    rw [← pow_succ]
    congr 1
    omega
  have hcast : ((2 : Int) ^ (w - 1)) = ((2 ^ (w - 1) : Nat) : Int) := by push_cast; ring
  have hncast : ((2 : Int) ^ w) = ((2 ^ w : Nat) : Int) := by push_cast; ring
  by_cases h : n < 2 ^ (w - 1)
  · rw [if_pos h]
    omega
  · rw [if_neg h]
    omega

/-- Reading back an encoded VarInt consumes exactly its bytes and returns the
original value (`v` in `i32` range). -/
theorem readVarInt_write_append (v : Int) (hlo : -2 ^ 31 ≤ v) (hhi : v < 2 ^ 31)
    (rest : List Nat) : readVarInt (VarInt.write v ++ rest) = .ok (v, rest) := by
  unfold readVarInt VarInt.write
  have hn : intToPat 32 v < 128 ^ 5 :=
    lt_trans (intToPat_lt 32 v (by norm_num)) (by norm_num)
  rw [readVarCore_writeVarNumFuel 32 5 .varIntTooBig (by norm_num) 5 _ 0 0 rest
    (by norm_num) hn (by norm_num) (by norm_num)]
  have hlt : intToPat 32 v < 2 ^ 32 := intToPat_lt 32 v (by norm_num)
  simp only [Except.map, Nat.zero_or, Nat.mul_zero, Nat.shiftLeft_zero,
    Nat.mod_eq_of_lt hlt]
  rw [patToInt_intToPat (show 0 < 32 by norm_num) hlo hhi]

/-- Reading back an encoded VarLong consumes exactly its bytes and returns
the original value (`v` in `i64` range). -/
theorem readVarLong_write_append (v : Int) (hlo : -2 ^ 63 ≤ v) (hhi : v < 2 ^ 63)
    (rest : List Nat) : readVarLong (VarLong.write v ++ rest) = .ok (v, rest) := by
  unfold readVarLong VarLong.write
  have hn : intToPat 64 v < 128 ^ 10 :=
    lt_trans (intToPat_lt 64 v (by norm_num)) (by norm_num)
  rw [readVarCore_writeVarNumFuel 64 10 .varLongTooBig (by norm_num) 10 _ 0 0 rest
    (by norm_num) hn (by norm_num) (by norm_num)]
  have hlt : intToPat 64 v < 2 ^ 64 := intToPat_lt 64 v (by norm_num)
  simp only [Except.map, Nat.zero_or, Nat.mul_zero, Nat.shiftLeft_zero,
    Nat.mod_eq_of_lt hlt]
  rw [patToInt_intToPat (show 0 < 64 by norm_num) hlo hhi]

/-- The read loop only ever fails with end-of-input or its "too big" error. -/
theorem readVarCore_error_cases (width maxBytes : Nat) (errBig : MCErr) :
    ∀ (input : List Nat) (k acc : Nat) (e : MCErr),
      readVarCore width maxBytes errBig input k acc = .error e →
      e = .eof ∨ e = errBig := by
  intro input
  induction input with
  | nil =>
    intro k acc e h
    rw [readVarCore] at h
    exact Or.inl (Except.error.inj h).symm
  | cons b rest ih =>
    intro k acc e h
    rw [readVarCore] at h
    split at h
    · exact Or.inr (Except.error.inj h).symm
    · split at h
      · exact absurd h (by simp)
      · exact ih _ _ _ h

/-- A successful read returns a pattern below `2 ^ width`. -/
theorem readVarCore_ok_lt (width maxBytes : Nat) (errBig : MCErr) (hw : 0 < width) :
    ∀ (input : List Nat) (k acc : Nat) (p : Nat) (r : List Nat),
      readVarCore width maxBytes errBig input k acc = .ok (p, r) → p < 2 ^ width := by
  intro input
  induction input with
  | nil =>
    intro k acc p r h
    rw [readVarCore] at h
    exact absurd h (by simp)
  | cons b rest ih =>
    intro k acc p r h
    rw [readVarCore] at h
    split at h
    · exact absurd h (by simp)
    · split at h
      · simp only [Except.ok.injEq, Prod.mk.injEq] at h
        rw [← h.1]
        exact Nat.mod_lt _ (by positivity)
      · exact ih _ _ _ _ h

/-- A successfully decoded VarInt lies in `i32` range. -/
theorem readVarInt_ok_range {input : List Nat} {v : Int} {r : List Nat}
    (h : readVarInt input = .ok (v, r)) : -2 ^ 31 ≤ v ∧ v < 2 ^ 31 := by
  unfold readVarInt at h
  cases hc : readVarCore 32 5 .varIntTooBig input 0 0 with
  | error e => rw [hc] at h; exact absurd h (by simp [Except.map])
  | ok p =>
    rw [hc] at h
    simp only [Except.map, Except.ok.injEq] at h
    have hlt : p.1 < 2 ^ 32 := readVarCore_ok_lt 32 5 .varIntTooBig (by norm_num) _ _ _ _ _ hc
    have hr := patToInt_range (show 0 < 32 by norm_num) hlt
    simp only [Prod.mk.injEq] at h
    rw [← h.1]
    exact hr


/-- If the first `maxBytes` bytes of the stream all carry the continuation
bit, the loop reads one byte more and fails with the "too big" error
(the bail fires after `num_read` is incremented past `maxBytes`, before the
continuation bit of that extra byte is examined). -/
theorem readVarCore_allCont (width maxBytes : Nat) (errBig : MCErr) :
    ∀ (bs : List Nat) (k acc b : Nat) (rest : List Nat),
      (∀ x ∈ bs, 128 ≤ x % 256) → bs.length + k = maxBytes →
      readVarCore width maxBytes errBig (bs ++ b :: rest) k acc = .error errBig := by
  intro bs
  induction bs with
  | nil =>
    intro k acc b rest _ hlen
    simp only [List.length_nil, Nat.zero_add] at hlen
    rw [List.nil_append, readVarCore, if_pos (by omega)]
  | cons x bs ih =>
    intro k acc b rest hcont hlen
    rw [List.cons_append, readVarCore]
    have hx : 128 ≤ x % 256 := hcont x (List.mem_cons_self x bs)
    simp only [List.length_cons] at hlen
    rw [if_neg (by omega), if_neg (by omega)]
    exact ih (k + 1) _ b rest (fun y hy => hcont y (List.mem_cons_of_mem x hy)) (by omega)

/-- C1: for every `i32` value, VarInt encode-then-decode returns the original
value, and encoding matches the documented canonical byte sequences
(`0 -> [0x00]`, `-1 -> [0xff,0xff,0xff,0xff,0x0f]`,
`i32::MIN -> [0x80,0x80,0x80,0x80,0x08]`); the same round-trip holds for
every `i64` value under VarLong, with the documented canonical bytes for
`i64::MAX` and `i64::MIN`. -/
theorem varint_varlong_roundtrip_canonical :
    (∀ v : Int, -2 ^ 31 ≤ v → v < 2 ^ 31 →
      readVarInt (VarInt.write v) = .ok (v, [])) ∧
    VarInt.write 0 = [0x00] ∧
    VarInt.write (-1) = [0xff, 0xff, 0xff, 0xff, 0x0f] ∧
    VarInt.write (-2 ^ 31) = [0x80, 0x80, 0x80, 0x80, 0x08] ∧
    (∀ v : Int, -2 ^ 63 ≤ v → v < 2 ^ 63 →
      readVarLong (VarLong.write v) = .ok (v, [])) ∧
    VarLong.write (2 ^ 63 - 1) =
      [0xff, 0xff, 0xff, 0xff, 0xff, 0xff, 0xff, 0xff, 0x7f] ∧
    VarLong.write (-2 ^ 63) =
      [0x80, 0x80, 0x80, 0x80, 0x80, 0x80, 0x80, 0x80, 0x80, 0x01] := by
  refine ⟨fun v hlo hhi => ?_, by decide, by decide, by decide,
    fun v hlo hhi => ?_, by decide, by decide⟩
  · have h := readVarInt_write_append v hlo hhi []
    rwa [List.append_nil] at h
  · have h := readVarLong_write_append v hlo hhi []
    rwa [List.append_nil] at h

theorem varint_varlong_roundtrip_canonical_witness :
    readVarInt (VarInt.write 12345) = .ok (12345, []) ∧
    readVarLong (VarLong.write (-9223372036854775808)) =
      .ok (-9223372036854775808, []) :=
  ⟨varint_varlong_roundtrip_canonical.1 12345 (by norm_num) (by norm_num),
   varint_varlong_roundtrip_canonical.2.2.2.2.1 (-9223372036854775808)
     (by norm_num) (by norm_num)⟩

/-- C6 (amended): VarInt decoding fails with the "too big" error whenever
the continuation bit is set in each of the first 5 bytes and a 6th byte is
available (on a stream that ends right after 5 continuation bytes the
`read_exact` of the 6th byte fails first, so the error is end-of-input
instead); analogously for VarLong with 10 bytes; and a well-formed encoding
(at most 5 resp. 10 bytes) never triggers this error. -/
theorem varint_varlong_toobig_error :
    (∀ (bs : List Nat) (b : Nat) (rest : List Nat),
       bs.length = 5 → (∀ x ∈ bs, 128 ≤ x % 256) →
       readVarInt (bs ++ b :: rest) = .error .varIntTooBig) ∧
    (∀ (bs : List Nat) (b : Nat) (rest : List Nat),
       bs.length = 10 → (∀ x ∈ bs, 128 ≤ x % 256) →
       readVarLong (bs ++ b :: rest) = .error .varLongTooBig) ∧
    (∀ v : Int, -2 ^ 31 ≤ v → v < 2 ^ 31 → (VarInt.write v).length ≤ 5 ∧
       ∀ rest, readVarInt (VarInt.write v ++ rest) = .ok (v, rest)) ∧
    (∀ v : Int, -2 ^ 63 ≤ v → v < 2 ^ 63 → (VarLong.write v).length ≤ 10 ∧
       ∀ rest, readVarLong (VarLong.write v ++ rest) = .ok (v, rest)) := by
  refine ⟨fun bs b rest hlen hcont => ?_, fun bs b rest hlen hcont => ?_,
    fun v hlo hhi => ⟨?_, fun rest => readVarInt_write_append v hlo hhi rest⟩,
    fun v hlo hhi => ⟨?_, fun rest => readVarLong_write_append v hlo hhi rest⟩⟩
  · unfold readVarInt
    rw [readVarCore_allCont 32 5 .varIntTooBig bs 0 0 b rest hcont (by omega)]
    rfl
  · unfold readVarLong
    rw [readVarCore_allCont 64 10 .varLongTooBig bs 0 0 b rest hcont (by omega)]
    rfl
  · exact writeVarNumFuel_length (by norm_num)
      (lt_trans (intToPat_lt 32 v (by norm_num)) (by norm_num))
  · exact writeVarNumFuel_length (by norm_num)
      (lt_trans (intToPat_lt 64 v (by norm_num)) (by norm_num))

theorem varint_varlong_toobig_error_witness :
    readVarInt [0x80, 0x80, 0x80, 0x80, 0x80, 0x01] = .error .varIntTooBig :=
  varint_varlong_toobig_error.1 [0x80, 0x80, 0x80, 0x80, 0x80] 0x01 []
    (by decide) (by decide)

/-- C6 counterexample: a stream whose first 5 bytes all carry the
continuation bit but which ends there fails with the end-of-input error,
not the "too big" error, refuting the claim for this input stream. -/
theorem varint_toobig_truncated_counterexample :
    (∀ x ∈ [0x80, 0x80, 0x80, 0x80, 0x80], 128 ≤ x % 256) ∧
    readVarInt [0x80, 0x80, 0x80, 0x80, 0x80] = .error .eof ∧
    MCErr.eof ≠ MCErr.varIntTooBig := by decide


/-- `read_raw_packet_id_and_data` (src/protocol/mod.rs): read the frame size
VarInt, reject sizes above 8 MiB (the comparison is on the signed `i32`),
cast the size to `usize` (sign-extending, `intToPat 64`), read exactly that
many bytes into a buffer, decode the leading VarInt of the buffer as the
packet id, and return the id together with the bytes after it. -/
def read_raw_packet_id_and_data (input : List Nat) :
    Except MCErr ((Int × List Nat) × List Nat) :=
  match readVarInt input with
  | .error e => .error e
  | .ok (size, rest) =>
    if 1024 * 1024 * 8 < size then .error .frameTooBig
    else
      let len := intToPat 64 size
      if rest.length < len then .error .eof
      else
        match readVarInt (rest.take len) with
        | .error e => .error e
        | .ok (packetId, payload) => .ok ((packetId, payload), rest.drop len)

/-- `Packet::write_with_header_to` (src/protocol/mod.rs), abstracted over the
serialized output: the scratch buffer holds the packet id VarInt followed by
the body bytes; `i32::try_from` of its length fails above `i32::MAX`; the
emitted frame is the length VarInt followed by the buffer. -/
def write_with_header (packetId : Int) (body : List Nat) : Except MCErr (List Nat) :=
  let content := VarInt.write packetId ++ body
  if 2 ^ 31 - 1 < content.length then .error .intOverflow
  else .ok (VarInt.write (content.length : Int) ++ content)

/-- Oversized frames are rejected right after the size VarInt is decoded,
independently of everything after it in the stream. -/
theorem read_raw_oversize {input : List Nat} {size : Int} {rest : List Nat}
    (hread : readVarInt input = .ok (size, rest)) (hbig : 8388608 < size) :
    read_raw_packet_id_and_data input = .error .frameTooBig := by
  unfold read_raw_packet_id_and_data
  rw [hread]
  dsimp only
  rw [if_pos (by omega)]

/-- `readVarInt` fails only with end-of-input or the VarInt "too big" error. -/
theorem readVarInt_error_cases {input : List Nat} {e : MCErr}
    (h : readVarInt input = .error e) : e = .eof ∨ e = .varIntTooBig := by
  unfold readVarInt at h
  cases hc : readVarCore 32 5 .varIntTooBig input 0 0 with
  | error e2 =>
    rw [hc] at h
    have he : e2 = e := by simpa [Except.map] using h
    exact he ▸ readVarCore_error_cases 32 5 .varIntTooBig input 0 0 e2 hc
  | ok p =>
    rw [hc] at h
    exact absurd h (by simp [Except.map])

/-- C2: a frame whose declared size exceeds 8 MiB is rejected with a protocol
error regardless of what (if anything) follows the size VarInt — no payload
bytes are consumed; and for every declared size in `[0, 8 MiB]` whose body is
present, exactly `size` bytes are consumed, the leading VarInt of the body is
returned as packet id and the rest of the body as opaque payload. -/
theorem read_raw_frame_size_spec :
    (∀ (input : List Nat) (size : Int) (rest : List Nat),
       readVarInt input = .ok (size, rest) → 8388608 < size →
       read_raw_packet_id_and_data input = .error .frameTooBig) ∧
    (∀ (size : Int) (body rest : List Nat) (packetId : Int) (payload : List Nat),
       0 ≤ size → size ≤ 8388608 → body.length = size.toNat →
       readVarInt body = .ok (packetId, payload) →
       read_raw_packet_id_and_data (VarInt.write size ++ (body ++ rest)) =
         .ok ((packetId, payload), rest)) := by
  constructor
  · intro input size rest hread hbig
    exact read_raw_oversize hread hbig
  · intro size body rest packetId payload h0 h8 hlen hbody
    unfold read_raw_packet_id_and_data
    rw [readVarInt_write_append size (by omega) (by omega) (body ++ rest)]
    dsimp only
    rw [if_neg (by omega)]
    have hpat : intToPat 64 size = size.toNat := by
      unfold intToPat
      rw [Int.emod_eq_of_lt h0 (by omega)]
    simp only [hpat, ← hlen, List.take_left, List.drop_left, hbody]
    rw [if_neg (by simp)]

theorem read_raw_frame_size_spec_witness :
    read_raw_packet_id_and_data (VarInt.write 1 ++ ([0x00] ++ [])) =
      .ok ((0, []), []) :=
  read_raw_frame_size_spec.2 1 [0x00] [] 0 [] (by norm_num) (by norm_num)
    (by decide) (by decide)


/-- C9 (implicit): the size check rejects only declared sizes strictly above
8 MiB; a negative declared size passes it, the `size as usize` cast
sign-extends it to the huge unsigned length `2^64 + size`, and the reader
then tries to fill a buffer of that length (failing with the read error on
any shorter stream) rather than failing with a negative-length protocol
error. -/
theorem negative_frame_size_behavior :
    (∀ (input : List Nat) (size : Int) (rest : List Nat),
       readVarInt input = .ok (size, rest) →
       (read_raw_packet_id_and_data input = .error .frameTooBig ↔ 8388608 < size)) ∧
    (∀ (input : List Nat) (size : Int) (rest : List Nat),
       readVarInt input = .ok (size, rest) → size < 0 →
       (intToPat 64 size : Int) = 2 ^ 64 + size ∧
       (rest.length < intToPat 64 size →
         read_raw_packet_id_and_data input = .error .eof)) := by
  constructor
  · intro input size rest hread
    constructor
    · intro hcontra
      by_contra hbig
      rw [not_lt] at hbig
      unfold read_raw_packet_id_and_data at hcontra
      rw [hread] at hcontra
      dsimp only at hcontra
      rw [if_neg (by omega)] at hcontra
      by_cases hlen : rest.length < intToPat 64 size
      · rw [if_pos hlen] at hcontra
        exact absurd hcontra (by simp)
      · rw [if_neg hlen] at hcontra
        cases hc : readVarInt (rest.take (intToPat 64 size)) with
        | error e =>
          rw [hc] at hcontra
          have he : e = .frameTooBig := Except.error.inj hcontra
          rcases readVarInt_error_cases hc with h1 | h1 <;> simp [he] at h1
        | ok p =>
          obtain ⟨packetId, payload⟩ := p
          rw [hc] at hcontra
          exact absurd hcontra (by simp)
    · intro hbig
      exact read_raw_oversize hread hbig
  · intro input size rest hread hneg
    have hrange := readVarInt_ok_range hread
    have c64 : (2 : Int) ^ 64 = 18446744073709551616 := by norm_num
    have c31 : (2 : Int) ^ 31 = 2147483648 := by norm_num
    have hmod : size % (2 : Int) ^ 64 = size + 2 ^ 64 := by
      have hmod2 : (size + 2 ^ 64 * 1) % 2 ^ 64 = size % 2 ^ 64 :=
        Int.add_mul_emod_self_left size (2 ^ 64) 1
      rw [mul_one] at hmod2
      rw [← hmod2]
      exact Int.emod_eq_of_lt (by omega) (by omega)
    have hpat : (intToPat 64 size : Int) = 2 ^ 64 + size := by
      unfold intToPat
      rw [hmod, Int.toNat_of_nonneg (by omega)]
      ring
    refine ⟨hpat, fun hlt => ?_⟩
    unfold read_raw_packet_id_and_data
    rw [hread]
    dsimp only
    rw [if_neg (by omega), if_pos hlt]

theorem negative_frame_size_behavior_witness :
    (readVarInt [0xff, 0xff, 0xff, 0xff, 0x0f] = .ok (-1, [])) ∧
    (intToPat 64 (-1) : Int) = 2 ^ 64 + -1 ∧
    read_raw_packet_id_and_data [0xff, 0xff, 0xff, 0xff, 0x0f] = .error .eof := by
  have h := negative_frame_size_behavior.2 [0xff, 0xff, 0xff, 0xff, 0x0f] (-1) []
    (by decide) (by norm_num)
  exact ⟨by decide, h.1, h.2 (by decide)⟩

/-- C10 (implicit): `write_with_header` fails if and only if the serialized
id-plus-body length exceeds `i32::MAX`; whenever it fits, the emitted frame
begins with a VarInt equal to that exact length; in particular a frame larger
than 8 MiB (but within `i32::MAX`) is emitted successfully even though the
raw-frame reader rejects it. -/
theorem write_with_header_spec :
    (∀ (packetId : Int) (body : List Nat),
       (∃ out, write_with_header packetId body = .ok out) ↔
       (VarInt.write packetId ++ body).length ≤ 2 ^ 31 - 1) ∧
    (∀ (packetId : Int) (body : List Nat),
       (VarInt.write packetId ++ body).length ≤ 2 ^ 31 - 1 →
       write_with_header packetId body =
         .ok (VarInt.write ((VarInt.write packetId ++ body).length : Int) ++
           (VarInt.write packetId ++ body)) ∧
       readVarInt (VarInt.write ((VarInt.write packetId ++ body).length : Int) ++
           (VarInt.write packetId ++ body)) =
         .ok (((VarInt.write packetId ++ body).length : Int),
           VarInt.write packetId ++ body)) ∧
    (∀ (packetId : Int) (body : List Nat),
       8388608 < (VarInt.write packetId ++ body).length →
       (VarInt.write packetId ++ body).length ≤ 2 ^ 31 - 1 →
       ∃ out, write_with_header packetId body = .ok out ∧
         read_raw_packet_id_and_data out = .error .frameTooBig) := by
  have hok : ∀ (packetId : Int) (body : List Nat),
      (VarInt.write packetId ++ body).length ≤ 2 ^ 31 - 1 →
      write_with_header packetId body =
        .ok (VarInt.write ((VarInt.write packetId ++ body).length : Int) ++
          (VarInt.write packetId ++ body)) := by
    intro packetId body hle
    unfold write_with_header
    rw [if_neg (by omega)]
  have hrd : ∀ (packetId : Int) (body : List Nat),
      (VarInt.write packetId ++ body).length ≤ 2 ^ 31 - 1 →
      readVarInt (VarInt.write ((VarInt.write packetId ++ body).length : Int) ++
          (VarInt.write packetId ++ body)) =
        .ok (((VarInt.write packetId ++ body).length : Int),
          VarInt.write packetId ++ body) := by
    intro packetId body hle
    have h0 : (0 : Int) ≤ ((VarInt.write packetId ++ body).length : Int) :=
      Int.natCast_nonneg _
    have hcast : ((VarInt.write packetId ++ body).length : Int) ≤
        ((2 ^ 31 - 1 : Nat) : Int) := by exact_mod_cast hle
    have c31 : ((2 ^ 31 - 1 : Nat) : Int) = 2 ^ 31 - 1 := by norm_num
    exact readVarInt_write_append _ (by omega) (by omega) _
  refine ⟨fun packetId body => ⟨?_, fun hle => ⟨_, hok packetId body hle⟩⟩,
    fun packetId body hle => ⟨hok packetId body hle, hrd packetId body hle⟩,
    fun packetId body hbig hle => ⟨_, hok packetId body hle, ?_⟩⟩
  · rintro ⟨out, hout⟩
    unfold write_with_header at hout
    by_contra hgt
    rw [not_le] at hgt
    rw [if_pos (by omega)] at hout
    exact absurd hout (by simp)
  · refine read_raw_oversize (hrd packetId body hle) ?_
    have : (8388608 : Int) < ((VarInt.write packetId ++ body).length : Int) := by
      exact_mod_cast hbig
    exact this


theorem write_with_header_spec_witness :
    ∃ out, write_with_header 0 (List.replicate 8388609 0) = .ok out ∧
      read_raw_packet_id_and_data out = .error .frameTooBig := by
  have hw : VarInt.write 0 = [0] := by decide
  have hlen : (VarInt.write 0 ++ List.replicate 8388609 0).length = 8388610 := by
    rw [hw, List.length_append, List.length_replicate]
    rfl
  refine write_with_header_spec.2.2 0 (List.replicate 8388609 0) ?_ ?_ <;>
    rw [hlen] <;> norm_num


/-- Big-endian bytes of the low `k` bytes of `n` (`to_be_bytes` on a `k`-byte
unsigned pattern). -/
def natToBeBytes : Nat → Nat → List Nat
  | 0, _ => []
  | k + 1, n => (n / 256 ^ k) % 256 :: natToBeBytes k n

/-- Big-endian value of a byte list (`from_be_bytes`). -/
def beVal (bytes : List Nat) : Nat := bytes.foldl (fun acc b => acc * 256 + b % 256) 0

/-- `Long::write_as_mc_type`: the `i64` as 8 big-endian bytes. -/
def Long.write (v : Int) : List Nat := natToBeBytes 8 (intToPat 64 v)

/-- `Long::read_as_mc_type`: 8 big-endian bytes into an `i64`. -/
def Long.read (input : List Nat) : Except MCErr (Int × List Nat) :=
  if input.length < 8 then .error .eof
  else .ok (patToInt 64 (beVal (input.take 8)), input.drop 8)

/-- `Position` (src/protocol/types.rs): `x: i32`, `y: i16`, `z: i32`,
modelled as unbounded integers exactly as wide operations dictate. -/
structure Position where
  x : Int
  y : Int
  z : Int
  deriving DecidableEq, Repr

/-- `Position::write_as_mc_type`: pack `x`/`z`/`y` into bits 38../12../0.. of
a `u64` (each field first sign-extended to `u64` and masked to 26/26/12
bits), then write the pattern as an `i64`. -/
def Position.write (p : Position) : List Nat :=
  let encoded := (intToPat 64 p.x &&& 0x3FFFFFF) <<< 38 |||
    (intToPat 64 p.z &&& 0x3FFFFFF) <<< 12 ||| (intToPat 64 p.y &&& 0xFFF)
  Long.write (patToInt 64 encoded)

/-- `Position::read_as_mc_type`: read the `i64`, reinterpret as `u64`, and
extract the components with `u64` (logical) shifts followed by truncating
casts — `(val >> 38) as i32`, `(val << 52 >> 52) as i16`,
`(val << 26 >> 38) as i32`. -/
def Position.read (input : List Nat) : Except MCErr (Position × List Nat) :=
  match Long.read input with
  | .error e => .error e
  | .ok (v, rest) =>
    let val := intToPat 64 v
    let x := patToInt 32 ((val >>> 38) % 2 ^ 32)
    let y := patToInt 16 ((val <<< 52 % 2 ^ 64) >>> 52 % 2 ^ 16)
    let z := patToInt 32 ((val <<< 26 % 2 ^ 64) >>> 38 % 2 ^ 32)
    .ok (⟨x, y, z⟩, rest)

/-- C7: evaluating encode-then-decode at `Position { x := -1, y := 0, z := 0 }`
returns `x = 67108863`, not `-1` — the `u64` shifts in the decoder are
logical, so components are zero-extended rather than sign-extended, and
negative components do not round-trip. -/
theorem position_decode_not_sign_extended :
    Position.write ⟨-1, 0, 0⟩ = [0xff, 0xff, 0xff, 0xc0, 0x00, 0x00, 0x00, 0x00] ∧
    Position.read (Position.write ⟨-1, 0, 0⟩) =
      .ok (⟨67108863, 0, 0⟩, []) ∧
    (67108863 : Int) ≠ -1 := by decide


/-- JSON values as handled by `serde_json::Value` in the status-rewrite code
(number representation details are irrelevant to the rewrite: only the shape
is inspected). -/
inductive Json where
  | null
  | bool (b : Bool)
  | num (n : Int)
  | str (s : String)
  | arr (elems : List Json)
  | obj (fields : List (String × Json))

/-- `serde_json::Map::get(_mut)`: the value bound to `key`. -/
def getField : List (String × Json) → String → Option Json
  | [], _ => none
  | (k, v) :: rest, key => if k = key then some v else getField rest key

/-- In-place mutation through `get_mut`: replace the value bound at `key`. -/
def setField : List (String × Json) → String → Json → List (String × Json)
  | [], _, _ => []
  | (k, v) :: rest, key, newV =>
    if k = key then (k, newV) :: rest else (k, v) :: setField rest key newV

/-- The status-description rewrite of `handle_client` (src/main.rs): the
status must be a JSON object with a `description` field; a string
description gets the suffix appended in place, an object description needs
an `extra` array to push the suffix into, an array description gets the
suffix pushed, and every other shape is an error. -/
def rewriteStatus (status : Json) (suffix : String) : Except MCErr Json :=
  match status with
  | .obj fields =>
    match getField fields "description" with
    | some (.str s) =>
      .ok (.obj (setField fields "description" (.str (s ++ suffix))))
    | some (.obj dfields) =>
      match getField dfields "extra" with
      | some (.arr elems) =>
        .ok (.obj (setField fields "description"
          (.obj (setField dfields "extra" (.arr (elems ++ [.str suffix]))))))
      | _ => .error .badExtraShape
    | some (.arr elems) =>
      .ok (.obj (setField fields "description" (.arr (elems ++ [.str suffix]))))
    | some _ => .error .badDescriptionShape
    | none => .error .noDescription
  | _ => .error .notAnObject

theorem getField_setField {fields : List (String × Json)} {key : String}
    {w : Json} (h : getField fields key = some w) (v : Json) :
    getField (setField fields key v) key = some v := by
  induction fields with
  | nil => simp [getField] at h
  | cons kv rest ih =>
    obtain ⟨k, old⟩ := kv
    by_cases hk : k = key
    · simp [getField, setField, hk]
    · rw [getField, if_neg hk] at h
      rw [setField, if_neg hk, getField, if_neg hk]
      exact ih h

/-- C4: for every JSON object with a `description` field the rewrite follows
the field's shape — append in place for a string, push into a required
`extra` array for an object (error when `extra` is missing or not an array),
push for an array — and fails for every other shape or a missing
`description`, producing no output. -/
theorem status_description_rewrite_spec :
    (∀ (fields : List (String × Json)) (suffix s : String),
       getField fields "description" = some (.str s) →
       rewriteStatus (.obj fields) suffix =
         .ok (.obj (setField fields "description" (.str (s ++ suffix)))) ∧
       getField (setField fields "description" (.str (s ++ suffix)))
         "description" = some (.str (s ++ suffix))) ∧
    (∀ (fields dfields : List (String × Json)) (suffix : String)
       (elems : List Json),
       getField fields "description" = some (.obj dfields) →
       getField dfields "extra" = some (.arr elems) →
       rewriteStatus (.obj fields) suffix =
         .ok (.obj (setField fields "description"
           (.obj (setField dfields "extra" (.arr (elems ++ [.str suffix])))))) ∧
       getField (setField dfields "extra" (.arr (elems ++ [.str suffix])))
         "extra" = some (.arr (elems ++ [.str suffix]))) ∧
    (∀ (fields dfields : List (String × Json)) (suffix : String),
       getField fields "description" = some (.obj dfields) →
       (∀ elems, getField dfields "extra" ≠ some (.arr elems)) →
       rewriteStatus (.obj fields) suffix = .error .badExtraShape) ∧
    (∀ (fields : List (String × Json)) (suffix : String) (elems : List Json),
       getField fields "description" = some (.arr elems) →
       rewriteStatus (.obj fields) suffix =
         .ok (.obj (setField fields "description"
           (.arr (elems ++ [.str suffix]))))) ∧
    (∀ (fields : List (String × Json)) (suffix : String) (n : Int),
       getField fields "description" = some (.num n) →
       rewriteStatus (.obj fields) suffix = .error .badDescriptionShape) ∧
    (∀ (fields : List (String × Json)) (suffix : String) (b : Bool),
       getField fields "description" = some (.bool b) →
       rewriteStatus (.obj fields) suffix = .error .badDescriptionShape) ∧
    (∀ (fields : List (String × Json)) (suffix : String),
       getField fields "description" = some .null →
       rewriteStatus (.obj fields) suffix = .error .badDescriptionShape) ∧
    (∀ (fields : List (String × Json)) (suffix : String),
       getField fields "description" = none →
       rewriteStatus (.obj fields) suffix = .error .noDescription) := by
  refine ⟨fun fields suffix s h => ⟨?_, getField_setField h _⟩,
    fun fields dfields suffix elems h hx => ⟨?_, getField_setField hx _⟩,
    fun fields dfields suffix h hx => ?_,
    fun fields suffix elems h => ?_,
    fun fields suffix n h => ?_,
    fun fields suffix b h => ?_,
    fun fields suffix h => ?_,
    fun fields suffix h => ?_⟩
  · rw [rewriteStatus, h]
  · rw [rewriteStatus, h]
    dsimp only
    rw [hx]
  · rw [rewriteStatus, h]
    dsimp only
    cases hc : getField dfields "extra" with
    | none => rfl
    | some j =>
      cases j with
      | arr elems => exact absurd hc (hx elems)
      | null => rfl
      | bool b => rfl
      | num n => rfl
      | str s2 => rfl
      | obj fs => rfl
  · rw [rewriteStatus, h]
  · rw [rewriteStatus, h]
  · rw [rewriteStatus, h]
  · rw [rewriteStatus, h]
  · rw [rewriteStatus, h]

theorem status_description_rewrite_spec_witness :
    rewriteStatus (.obj [("description", .str "Hi")]) "!" =
      .ok (.obj [("description", .str "Hi!")]) ∧
    getField (setField [("description", Json.str "Hi")] "description"
      (.str "Hi!")) "description" = some (.str "Hi!") :=
  status_description_rewrite_spec.1 [("description", .str "Hi")] "!" "Hi" rfl


/-- Address family of a pool entry (`IpAddr::is_ipv4` / `is_ipv6`). -/
inductive IpFam where
  | v4
  | v6
  deriving DecidableEq, Repr

/-- The source pool as observed through `Arc::strong_count`: each entry is
its address family together with its current strong count (the pool's own
reference is the baseline holder, so an unheld entry has count 1). -/
abbrev SourcePool := List (IpFam × Nat)

/-- The family test of the scan loop:
`(ip.is_ipv4() && v4) || (ip.is_ipv6() && v6)`. -/
def famMatches (fam : IpFam) (needV4 needV6 : Bool) : Bool :=
  (fam == IpFam.v4 && needV4) || (fam == IpFam.v6 && needV6)

/-- The scan of `get_available_source_ip` (src/main.rs): skip entries whose
strong count exceeds 1, return the first remaining entry whose family
matches; the result is reported as the index of the chosen entry. -/
def scanSources : SourcePool → Bool → Bool → Option Nat
  | [], _, _ => none
  | (fam, cnt) :: rest, needV4, needV6 =>
    if 1 < cnt then (scanSources rest needV4 needV6).map (· + 1)
    else if famMatches fam needV4 needV6 then some 0
    else (scanSources rest needV4 needV6).map (· + 1)

/-- `ip.clone()`: one more strong reference to the entry at `idx`. -/
def bumpAt : SourcePool → Nat → SourcePool
  | [], _ => []
  | e :: rest, 0 => (e.1, e.2 + 1) :: rest
  | e :: rest, idx + 1 => e :: bumpAt rest idx

/-- Dropping a connection's handle at end of session: one strong reference
fewer on the entry at `idx` (`Arc` drop semantics, the implicit release the
spec describes). -/
def dropHandleAt : SourcePool → Nat → SourcePool
  | [], _ => []
  | e :: rest, 0 => (e.1, e.2 - 1) :: rest
  | e :: rest, idx + 1 => e :: dropHandleAt rest idx

/-- `get_available_source_ip` (src/main.rs): `Ok(None)` on an empty pool,
else a cloned handle of the first eligible entry (reported as its index,
with the clone's count increment applied), else the exhaustion error. -/
def get_available_source_ip (pool : SourcePool) (needV4 needV6 : Bool) :
    Except MCErr (Option (Nat × SourcePool)) :=
  if pool.isEmpty then .ok none
  else
    match scanSources pool needV4 needV6 with
    | some idx => .ok (some (idx, bumpAt pool idx))
    | none => .error .outOfSourceIps

/-- Eligibility as the loop tests it: not currently held (count ≤ 1, which
is count = 1 under the pool invariant) and family matches. -/
def eligible (e : IpFam × Nat) (needV4 needV6 : Bool) : Prop :=
  e.2 ≤ 1 ∧ famMatches e.1 needV4 needV6 = true

instance (e : IpFam × Nat) (needV4 needV6 : Bool) :
    Decidable (eligible e needV4 needV6) := by
  unfold eligible
  infer_instance

theorem scanSources_some {needV4 needV6 : Bool} :
    ∀ (pool : SourcePool) (idx : Nat),
      scanSources pool needV4 needV6 = some idx →
      ∃ e, pool.get? idx = some e ∧ eligible e needV4 needV6 ∧
        ∀ j, j < idx → ∀ e2, pool.get? j = some e2 → ¬ eligible e2 needV4 needV6 := by
  intro pool
  induction pool with
  | nil => intro idx h; simp [scanSources] at h
  | cons e rest ih =>
    obtain ⟨fam, cnt⟩ := e
    intro idx h
    rw [scanSources] at h
    by_cases hheld : 1 < cnt
    · rw [if_pos hheld] at h
      cases hs : scanSources rest needV4 needV6 with
      | none => rw [hs] at h; exact absurd h (by simp)
      | some idx2 =>
        rw [hs] at h
        simp only [Option.map_some', Option.some.injEq] at h
        obtain ⟨e2, hg, helig, hbefore⟩ := ih idx2 hs
        refine ⟨e2, ?_, helig, ?_⟩
        · rw [← h, List.get?_cons_succ]; exact hg
        · intro j hj e3 hj3
          cases j with
          | zero =>
            simp only [List.get?_cons_zero, Option.some.injEq] at hj3
            rw [← hj3]
            intro helig3
            exact absurd helig3.1 (by omega)
          | succ j2 =>
            rw [List.get?_cons_succ] at hj3
            exact hbefore j2 (by omega) e3 hj3
    · rw [if_neg hheld] at h
      by_cases hfam : famMatches fam needV4 needV6
      · rw [if_pos hfam] at h
        simp only [Option.some.injEq] at h
        refine ⟨(fam, cnt), ?_, ⟨by omega, hfam⟩, ?_⟩
        · rw [← h]; rfl
        · intro j hj e2 hj2
          omega
      · rw [if_neg hfam] at h
        cases hs : scanSources rest needV4 needV6 with
        | none => rw [hs] at h; exact absurd h (by simp)
        | some idx2 =>
          rw [hs] at h
          simp only [Option.map_some', Option.some.injEq] at h
          obtain ⟨e2, hg, helig, hbefore⟩ := ih idx2 hs
          refine ⟨e2, ?_, helig, ?_⟩
          · rw [← h, List.get?_cons_succ]; exact hg
          · intro j hj e3 hj3
            cases j with
            | zero =>
              simp only [List.get?_cons_zero, Option.some.injEq] at hj3
              rw [← hj3]
              intro helig3
              exact absurd helig3.2 (by simp [hfam])
            | succ j2 =>
              rw [List.get?_cons_succ] at hj3
              exact hbefore j2 (by omega) e3 hj3

theorem scanSources_none {needV4 needV6 : Bool} :
    ∀ (pool : SourcePool), scanSources pool needV4 needV6 = none →
      ∀ e ∈ pool, ¬ eligible e needV4 needV6 := by
  intro pool
  induction pool with
  | nil => intro _ e he; simp at he
  | cons e0 rest ih =>
    obtain ⟨fam, cnt⟩ := e0
    intro h e he
    rw [scanSources] at h
    by_cases hheld : 1 < cnt
    · rw [if_pos hheld] at h
      rcases List.mem_cons.mp he with rfl | hmem
      · intro helig; exact absurd helig.1 (by omega)
      · cases hs : scanSources rest needV4 needV6 with
        | none => exact ih hs e hmem
        | some idx => rw [hs] at h; exact absurd h (by simp)
    · rw [if_neg hheld] at h
      by_cases hfam : famMatches fam needV4 needV6
      · rw [if_pos hfam] at h
        exact absurd h (by simp)
      · rw [if_neg hfam] at h
        rcases List.mem_cons.mp he with rfl | hmem
        · intro helig; exact absurd helig.2 (by simp [hfam])
        · cases hs : scanSources rest needV4 needV6 with
          | none => exact ih hs e hmem
          | some idx => rw [hs] at h; exact absurd h (by simp)

theorem bumpAt_get_self :
    ∀ (pool : SourcePool) (idx : Nat) (e : IpFam × Nat),
      pool.get? idx = some e →
      (bumpAt pool idx).get? idx = some (e.1, e.2 + 1) := by
  intro pool
  induction pool with
  | nil => intro idx e h; simp at h
  | cons e0 rest ih =>
    intro idx e h
    cases idx with
    | zero =>
      simp only [List.get?_cons_zero, Option.some.injEq] at h
      rw [← h, bumpAt]
      rfl
    | succ idx2 =>
      rw [List.get?_cons_succ] at h
      rw [bumpAt, List.get?_cons_succ]
      exact ih idx2 e h

theorem get_available_ok_some {pool : SourcePool} {needV4 needV6 : Bool}
    {idx : Nat} {pool2 : SourcePool}
    (h : get_available_source_ip pool needV4 needV6 = .ok (some (idx, pool2))) :
    scanSources pool needV4 needV6 = some idx ∧ pool2 = bumpAt pool idx := by
  unfold get_available_source_ip at h
  by_cases hemp : pool.isEmpty
  · rw [if_pos hemp] at h
    exact absurd h (by simp)
  · rw [if_neg hemp] at h
    cases hs : scanSources pool needV4 needV6 with
    | none => rw [hs] at h; exact absurd h (by simp)
    | some idx0 =>
      rw [hs] at h
      simp only [Except.ok.injEq, Option.some.injEq, Prod.mk.injEq] at h
      obtain ⟨h1, h2⟩ := h
      subst h1
      exact ⟨rfl, h2.symm⟩

/-- C5: acquisition returns no preference (`None`) on an empty pool; on a
non-empty pool it returns a clone of the first entry in list order whose
strong count is exactly one and whose family matches, raising that count to
two and making the entry ineligible until released; with no eligible entry
it fails with the exhaustion error; and with a single configured address a
second acquire for the same family fails while the handle is held and
succeeds again once it is dropped. -/
theorem source_ip_pool_spec :
    (∀ needV4 needV6, get_available_source_ip [] needV4 needV6 = .ok none) ∧
    (∀ (pool : SourcePool) (needV4 needV6 : Bool) (idx : Nat)
       (pool2 : SourcePool),
       (∀ e ∈ pool, 1 ≤ e.2) →
       get_available_source_ip pool needV4 needV6 = .ok (some (idx, pool2)) →
       ∃ fam, pool.get? idx = some (fam, 1) ∧
         famMatches fam needV4 needV6 = true ∧
         (∀ j, j < idx → ∀ e2, pool.get? j = some e2 →
            ¬ (e2.2 = 1 ∧ famMatches e2.1 needV4 needV6 = true)) ∧
         pool2 = bumpAt pool idx ∧
         pool2.get? idx = some (fam, 2) ∧
         (∀ needV4b needV6b idx2 pool3,
            get_available_source_ip pool2 needV4b needV6b =
              .ok (some (idx2, pool3)) → idx2 ≠ idx)) ∧
    (∀ (pool : SourcePool) (needV4 needV6 : Bool),
       pool ≠ [] →
       (∀ e ∈ pool, ¬ (e.2 ≤ 1 ∧ famMatches e.1 needV4 needV6 = true)) →
       get_available_source_ip pool needV4 needV6 = .error .outOfSourceIps) ∧
    (∀ (fam : IpFam) (needV4 needV6 : Bool),
       famMatches fam needV4 needV6 = true →
       get_available_source_ip [(fam, 1)] needV4 needV6 =
         .ok (some (0, [(fam, 2)])) ∧
       get_available_source_ip [(fam, 2)] needV4 needV6 =
         .error .outOfSourceIps ∧
       dropHandleAt [(fam, 2)] 0 = [(fam, 1)] ∧
       get_available_source_ip (dropHandleAt [(fam, 2)] 0) needV4 needV6 =
         .ok (some (0, [(fam, 2)]))) := by
  refine ⟨fun _ _ => rfl, ?_, ?_, ?_⟩
  · intro pool needV4 needV6 idx pool2 hinv h
    obtain ⟨hs, hp2⟩ := get_available_ok_some h
    obtain ⟨e, hg, helig, hbefore⟩ := scanSources_some pool idx hs
    have hmem : e ∈ pool := List.get?_mem hg
    have hcnt : e.2 = 1 := le_antisymm helig.1 (hinv e hmem)
    refine ⟨e.1, ?_, helig.2, ?_, hp2, ?_, ?_⟩
    · rw [← hcnt]
      exact hg
    · intro j hj e2 hj2 hc
      exact hbefore j hj e2 hj2 ⟨by omega, hc.2⟩
    · rw [hp2]
      have := bumpAt_get_self pool idx e hg
      rw [this, hcnt]
    · intro needV4b needV6b idx2 pool3 h3 hidx
      obtain ⟨hs3, -⟩ := get_available_ok_some h3
      obtain ⟨e3, hg3, helig3, -⟩ := scanSources_some pool2 idx2 hs3
      rw [hidx] at hg3
      rw [hp2] at hg3
      have hbump := bumpAt_get_self pool idx e hg
      rw [hbump] at hg3
      have he3 : e3 = (e.1, e.2 + 1) := (Option.some.inj hg3).symm
      rw [he3] at helig3
      have := helig3.1
      simp only at this
      omega
  · intro pool needV4 needV6 hne hnone
    unfold get_available_source_ip
    rw [if_neg (by simpa [List.isEmpty_iff] using hne)]
    cases hs : scanSources pool needV4 needV6 with
    | none => rfl
    | some idx =>
      obtain ⟨e, hg, helig, -⟩ := scanSources_some pool idx hs
      exact absurd helig (hnone e (List.get?_mem hg))
  · intro fam needV4 needV6 hfam
    have h1 : get_available_source_ip [(fam, 1)] needV4 needV6 =
        .ok (some (0, [(fam, 2)])) := by
      unfold get_available_source_ip
      rw [if_neg (by simp), scanSources, if_neg (by omega), if_pos hfam]
      rfl
    have h2 : get_available_source_ip [(fam, 2)] needV4 needV6 =
        .error .outOfSourceIps := by
      unfold get_available_source_ip
      rw [if_neg (by simp), scanSources, if_pos (by omega)]
      rfl
    exact ⟨h1, h2, rfl, h1⟩

theorem source_ip_pool_spec_witness :
    get_available_source_ip [(IpFam.v4, 1)] true false =
      .ok (some (0, [(IpFam.v4, 2)])) ∧
    get_available_source_ip [(IpFam.v4, 2)] true false =
      .error .outOfSourceIps ∧
    dropHandleAt [(IpFam.v4, 2)] 0 = [(IpFam.v4, 1)] ∧
    get_available_source_ip (dropHandleAt [(IpFam.v4, 2)] 0) true false =
      .ok (some (0, [(IpFam.v4, 2)])) :=
  source_ip_pool_spec.2.2.2 IpFam.v4 true false (by decide)


/-- A UTF-8 continuation byte (`0x80..=0xBF`). -/
def contB (b : Nat) : Bool := 0x80 ≤ b && b ≤ 0xBF

/-- Strict UTF-8 validity of a byte sequence, as enforced by
`String::from_utf8` (rejecting overlong forms, surrogates, and values above
U+10FFFF). -/
def validUtf8 : List Nat → Bool
  | [] => true
  | b0 :: rest =>
    if b0 < 0x80 then validUtf8 rest
    else
      match rest with
      | [] => false
      | b1 :: rest1 =>
        if 0xC2 ≤ b0 && b0 ≤ 0xDF then contB b1 && validUtf8 rest1
        else
          match rest1 with
          | [] => false
          | b2 :: rest2 =>
            if b0 = 0xE0 then
              (0xA0 ≤ b1 && b1 ≤ 0xBF) && contB b2 && validUtf8 rest2
            else if (0xE1 ≤ b0 && b0 ≤ 0xEC) || b0 = 0xEE || b0 = 0xEF then
              contB b1 && contB b2 && validUtf8 rest2
            else if b0 = 0xED then
              (0x80 ≤ b1 && b1 ≤ 0x9F) && contB b2 && validUtf8 rest2
            else
              match rest2 with
              | [] => false
              | b3 :: rest3 =>
                if b0 = 0xF0 then
                  (0x90 ≤ b1 && b1 ≤ 0xBF) && contB b2 && contB b3 && validUtf8 rest3
                else if 0xF1 ≤ b0 && b0 ≤ 0xF3 then
                  contB b1 && contB b2 && contB b3 && validUtf8 rest3
                else if b0 = 0xF4 then
                  (0x80 ≤ b1 && b1 ≤ 0x8F) && contB b2 && contB b3 && validUtf8 rest3
                else false

/-- `String::read_as_mc_type` (src/protocol/types.rs): a VarInt byte length
(negative is an error), that many raw bytes, which must be valid UTF-8.  The
decoded value is kept as its byte sequence. -/
def readString (input : List Nat) : Except MCErr (List Nat × List Nat) :=
  match readVarInt input with
  | .error e => .error e
  | .ok (len, rest) =>
    if len < 0 then .error .negLen
    else
      let n := len.toNat
      if rest.length < n then .error .eof
      else if validUtf8 (rest.take n) then .ok (rest.take n, rest.drop n)
      else .error .badUtf8

/-- `String::write_as_mc_type`: VarInt byte length (via `i32::try_from`)
followed by the raw bytes. -/
def writeString (bytes : List Nat) : Except MCErr (List Nat) :=
  if 2 ^ 31 - 1 < bytes.length then .error .intOverflow
  else .ok (VarInt.write (bytes.length : Int) ++ bytes)

/-- `ClientHandshake` (src/protocol/client/handshake.rs); the address string
is kept as its UTF-8 bytes. -/
structure ClientHandshake where
  protocol_version : Int
  server_address : List Nat
  server_port : Nat
  next_state : Int
  deriving DecidableEq, Repr

/-- `ClientHandshake::write_to`: protocol version, address, port (big-endian
`u16`), next state. -/
def ClientHandshake.write_to (h : ClientHandshake) : Except MCErr (List Nat) :=
  match writeString h.server_address with
  | .error e => .error e
  | .ok addr =>
    .ok (VarInt.write h.protocol_version ++ addr ++
      natToBeBytes 2 (h.server_port % 2 ^ 16) ++ VarInt.write h.next_state)

/-- `ClientHandshake::from_cursor`: the four fields in order; bytes after
them are left in the cursor. -/
def ClientHandshake.from_cursor (data : List Nat) :
    Except MCErr (ClientHandshake × List Nat) :=
  match readVarInt data with
  | .error e => .error e
  | .ok (pv, r1) =>
    match readString r1 with
    | .error e => .error e
    | .ok (addr, r2) =>
      if r2.length < 2 then .error .eof
      else
        match readVarInt (r2.drop 2) with
        | .error e => .error e
        | .ok (next, r3) =>
          .ok ({ protocol_version := pv, server_address := addr,
                 server_port := beVal (r2.take 2), next_state := next }, r3)

/-- `ClientLoginStart` (src/protocol/client/login.rs), new format:
username string plus a 16-byte UUID. -/
structure ClientLoginStart where
  username : List Nat
  uuid : List Nat
  deriving DecidableEq, Repr

/-- `ClientLoginStart::from_cursor`: username as a string, then the UUID's
16 raw bytes. -/
def ClientLoginStart.from_cursor (data : List Nat) :
    Except MCErr (ClientLoginStart × List Nat) :=
  match readString data with
  | .error e => .error e
  | .ok (name, r1) =>
    if r1.length < 16 then .error .eof
    else .ok ({ username := name, uuid := r1.take 16 }, r1.drop 16)

/-- Legacy LoginStart carrying only the username. -/
structure ClientLoginStartOnlyName where
  username : List Nat
  deriving DecidableEq, Repr

/-- Modelled from the spec: `ClientLoginStartOnlyName` is referenced by the
connection handler but its definition is not among the provided sources; per
the spec the legacy LoginStart format is `{ username: String }` only, so its
cursor decode reads a single string. -/
def ClientLoginStartOnlyName.from_cursor (data : List Nat) :
    Except MCErr (ClientLoginStartOnlyName × List Nat) :=
  match readString data with
  | .error e => .error e
  | .ok (name, r1) => .ok ({ username := name }, r1)

/-- The login-forwarding block of `handle_client` (src/main.rs 386-436):
build the Handshake frame with alias host/port if configured (else the
target's), the client's protocol version and `next_state = 2`; read the
client's first login frame raw and require the LoginStart id; decode it as
the new format and fall back to the legacy format; then append a frame of
the original raw id and payload bytes and return the combined buffer
(written to the target in one call) together with the unconsumed client
stream. -/
def buildLoginForward (pv : Int) (targetHost : List Nat) (targetPort : Nat)
    (aliasHost : Option (List Nat)) (aliasPort : Option Nat)
    (client : List Nat) : Except MCErr (List Nat × List Nat) :=
  match ClientHandshake.write_to
      { protocol_version := pv, next_state := 2,
        server_port := aliasPort.getD targetPort,
        server_address := aliasHost.getD targetHost } with
  | .error e => .error e
  | .ok hsBody =>
    match write_with_header 0 hsBody with
    | .error e => .error e
    | .ok hsFrame =>
      match read_raw_packet_id_and_data client with
      | .error e => .error e
      | .ok ((packetId, pdata), rest) =>
        if packetId ≠ 0 then .error .wrongPacketId
        else
          let forward :=
            let inner := VarInt.write packetId ++ pdata
            hsFrame ++ VarInt.write (patToInt 32 (inner.length % 2 ^ 32)) ++ inner
          match ClientLoginStart.from_cursor pdata with
          | .ok _ => .ok (forward, rest)
          | .error _ =>
            match ClientLoginStartOnlyName.from_cursor pdata with
            | .error e => .error e
            | .ok _ => .ok (forward, rest)

/-- C3: when the client's first login-phase frame carries the LoginStart id,
the single buffer handed to the target is exactly the Handshake frame (built
from the client's protocol version, `next_state = 2`, and the alias host/port
when configured, else the target's) followed by a frame whose body is the
original raw packet id and payload bytes; the new-format decode failing is
not an error when the legacy decode succeeds, and the forwarded bytes are
the same in both cases. -/
theorem login_forward_buffer_spec :
    ∀ (pv : Int) (targetHost : List Nat) (targetPort : Nat)
      (aliasHost : Option (List Nat)) (aliasPort : Option Nat)
      (client : List Nat) (packetId : Int) (pdata rest : List Nat)
      (hsBody hsFrame : List Nat),
      read_raw_packet_id_and_data client = .ok ((packetId, pdata), rest) →
      packetId = 0 →
      pdata.length ≤ 8388608 →
      ((∃ v, ClientLoginStart.from_cursor pdata = .ok v) ∨
       ((∀ v, ClientLoginStart.from_cursor pdata ≠ .ok v) ∧
        ∃ v, ClientLoginStartOnlyName.from_cursor pdata = .ok v)) →
      ClientHandshake.write_to
        { protocol_version := pv, next_state := 2,
          server_port := aliasPort.getD targetPort,
          server_address := aliasHost.getD targetHost } = .ok hsBody →
      write_with_header 0 hsBody = .ok hsFrame →
      buildLoginForward pv targetHost targetPort aliasHost aliasPort client =
        .ok (hsFrame ++ VarInt.write ((1 + pdata.length : Nat) : Int) ++
          ([0] ++ pdata), rest) := by
  intro pv targetHost targetPort aliasHost aliasPort client packetId pdata rest
    hsBody hsFrame hraw hpid hsize hdec hhs hframe
  subst hpid
  unfold buildLoginForward
  rw [hhs]
  dsimp only
  rw [hframe]
  dsimp only
  rw [hraw]
  dsimp only
  rw [if_neg (by simp)]
  have hw0 : VarInt.write 0 = [0] := by decide
  have hlen : (VarInt.write (0 : Int) ++ pdata).length = 1 + pdata.length := by
    rw [hw0]
    simp
    omega
  have hpat : patToInt 32 ((VarInt.write (0 : Int) ++ pdata).length % 2 ^ 32) =
      ((1 + pdata.length : Nat) : Int) := by
    rw [hlen, Nat.mod_eq_of_lt (by omega)]
    unfold patToInt
    rw [if_pos (by omega)]
  rcases hdec with ⟨v, hv⟩ | ⟨hne, w, hw⟩
  · rw [hv]
    dsimp only
    rw [hpat, hw0]
  · cases hc : ClientLoginStart.from_cursor pdata with
    | ok v => exact absurd hc (hne v)
    | error e =>
      dsimp only
      rw [hw]
      dsimp only
      rw [hpat, hw0]

theorem login_forward_buffer_spec_witness :
    buildLoginForward 1 [97] 25565 none none
      ([19, 0] ++ ([1, 97] ++ List.replicate 16 0)) =
      .ok ([7, 0, 1, 1, 97, 99, 221, 2] ++ VarInt.write ((1 + 18 : Nat) : Int) ++
        ([0] ++ ([1, 97] ++ List.replicate 16 0)), []) := by
  have h := login_forward_buffer_spec 1 [97] 25565 none none
    ([19, 0] ++ ([1, 97] ++ List.replicate 16 0)) 0
    ([1, 97] ++ List.replicate 16 0) [] [1, 1, 97, 99, 221, 2]
    [7, 0, 1, 1, 97, 99, 221, 2]
    (by decide) rfl (by decide)
    (Or.inl ⟨({ username := [97], uuid := List.replicate 16 0 },
      ([] : List Nat)), by decide⟩)
    (by decide) (by decide)
  simpa using h


/-- UTF-8 encoding of a code point (`String::as_bytes` per character). -/
def utf8EncodeChar (c : Nat) : List Nat :=
  if c < 0x80 then [c]
  else if c < 0x800 then [0xC0 + c / 64, 0x80 + c % 64]
  else if c < 0x10000 then [0xE0 + c / 4096, 0x80 + c / 64 % 64, 0x80 + c % 64]
  else [0xF0 + c / 262144, 0x80 + c / 4096 % 64, 0x80 + c / 64 % 64, 0x80 + c % 64]

/-- UTF-8 bytes of a string (`as_bytes`). -/
def strBytes (s : String) : List Nat :=
  (s.data.map fun ch => utf8EncodeChar ch.toNat).join

def hexDigit (n : Nat) : Char :=
  if n < 10 then Char.ofNat (48 + n) else Char.ofNat (87 + n)

/-- JSON string escaping as `serde_json` performs it: short escapes for the
quote, backslash and common control characters, `\u00XX` for the rest of the
control range. -/
def jsonEscapeChar (c : Char) : String :=
  if c = '"' then "\\\""
  else if c = '\\' then "\\\\"
  else if c = '\n' then "\\n"
  else if c = '\r' then "\\r"
  else if c = '\t' then "\\t"
  else if c.toNat = 8 then "\\b"
  else if c.toNat = 12 then "\\f"
  else if c.toNat < 0x20 then
    String.mk ['\\', 'u', '0', '0', hexDigit (c.toNat / 16), hexDigit (c.toNat % 16)]
  else String.singleton c

def jsonEscape (s : String) : String := String.join (s.data.map jsonEscapeChar)

mutual

/-- `serde_json::to_string` on our JSON model. -/
def jsonSerialize : Json → String
  | .null => "null"
  | .bool true => "true"
  | .bool false => "false"
  | .num n => toString n
  | .str s => "\"" ++ jsonEscape s ++ "\""
  | .arr elems => "[" ++ jsonSerializeElems elems ++ "]"
  | .obj fields => "\x7b" ++ jsonSerializeFields fields ++ "\x7d"

def jsonSerializeElems : List Json → String
  | [] => ""
  | [x] => jsonSerialize x
  | x :: y :: rest => jsonSerialize x ++ "," ++ jsonSerializeElems (y :: rest)

def jsonSerializeFields : List (String × Json) → String
  | [] => ""
  | [(k, v)] => "\"" ++ jsonEscape k ++ "\":" ++ jsonSerialize v
  | (k, v) :: f :: rest =>
    "\"" ++ jsonEscape k ++ "\":" ++ jsonSerialize v ++ "," ++
      jsonSerializeFields (f :: rest)

end

/-- `Display` text of an error as interpolated into the kick reason
(`format!("StupidMCProxy Error: {err}")`); only the pool-exhaustion message
— the error the handler can actually reach at the kick site — is modelled
exactly. -/
def errDisplay : MCErr → String
  | .outOfSourceIps => "Out of Source IPs!"
  | _ => ""

/-- `ServerLoginDisconnect` (src/protocol/server/login.rs) written with
header: packet id 0x00, body the serialized JSON reason as a wire string. -/
def serverLoginDisconnectFrame (reason : Json) : Except MCErr (List Nat) :=
  match writeString (strBytes (jsonSerialize reason)) with
  | .error e => .error e
  | .ok body => write_with_header 0 body

/-- `Packet::read_with_header_from` instantiated at `ClientHandshake`:
read a raw frame, require the handshake packet id (0x00), then decode the
payload. -/
def ClientHandshake.read_with_header (input : List Nat) :
    Except MCErr (ClientHandshake × List Nat) :=
  match read_raw_packet_id_and_data input with
  | .error e => .error e
  | .ok ((packetId, pdata), rest) =>
    if packetId ≠ 0 then .error .wrongPacketId
    else
      match ClientHandshake.from_cursor pdata with
      | .error e => .error e
      | .ok (hs, _) => .ok (hs, rest)

/-- Outcome of the modelled pre-relay portion of `handle_client`. -/
inductive LoginOutcome where
  | statusRequested (hs : ClientHandshake) (rest : List Nat)
  | proceed (acquired : Option (Nat × SourcePool)) (forward : List Nat)
      (rest : List Nat)
  deriving DecidableEq, Repr

/-- The client-facing portion of `handle_client` (src/main.rs) from the
handshake up to the login-forward write, with DNS resolution abstracted to
the availability flags of the two address families: read the handshake;
`next_state = 1` hands over to the status path, any value other than 2 is an
error; acquire a source IP, and on failure kick the client with a
`ServerLoginDisconnect` carrying the JSON reason before returning that
error; otherwise build and account the forwarded buffer.  The first
component is the bytes written back to the client in this portion. -/
def handle_client_login (client : List Nat) (pool : SourcePool)
    (haveV4 haveV6 : Bool) (targetHost : List Nat) (targetPort : Nat)
    (aliasHost : Option (List Nat)) (aliasPort : Option Nat) :
    List Nat × Except MCErr LoginOutcome :=
  match ClientHandshake.read_with_header client with
  | .error e => ([], .error e)
  | .ok (hs, rest) =>
    if hs.next_state = 1 then ([], .ok (.statusRequested hs rest))
    else if hs.next_state ≠ 2 then ([], .error .unsupportedNextState)
    else
      match get_available_source_ip pool haveV4 haveV6 with
      | .error e =>
        match serverLoginDisconnectFrame
            (.obj [("text", .str ("StupidMCProxy Error: " ++ errDisplay e))]) with
        | .ok frame => (frame, .error e)
        | .error e2 => ([], .error e2)
      | .ok acquired =>
        match buildLoginForward hs.protocol_version targetHost targetPort
            aliasHost aliasPort rest with
        | .error e => ([], .error e)
        | .ok (forward, rest2) => ([], .ok (.proceed acquired forward rest2))

theorem writeString_error_eq {bs : List Nat} {e : MCErr}
    (h : writeString bs = .error e) : e = .intOverflow := by
  unfold writeString at h
  by_cases hb : 2 ^ 31 - 1 < bs.length
  · rw [if_pos hb] at h
    exact (Except.error.inj h).symm
  · rw [if_neg hb] at h
    exact absurd h (by simp)

theorem write_with_header_error_eq {packetId : Int} {body : List Nat} {e : MCErr}
    (h : write_with_header packetId body = .error e) : e = .intOverflow := by
  unfold write_with_header at h
  by_cases hb : 2 ^ 31 - 1 < (VarInt.write packetId ++ body).length
  · rw [if_pos hb] at h
    exact (Except.error.inj h).symm
  · rw [if_neg hb] at h
    exact absurd h (by simp)

theorem clientHandshake_write_to_error_eq {hs : ClientHandshake} {e : MCErr}
    (h : hs.write_to = .error e) : e = .intOverflow := by
  unfold ClientHandshake.write_to at h
  cases hw : writeString hs.server_address with
  | error e2 =>
    rw [hw] at h
    have h1 : e2 = e := Except.error.inj h
    rw [← h1]
    exact writeString_error_eq hw
  | ok addr =>
    rw [hw] at h
    exact absurd h (by simp)

theorem readString_error_ne_pool {input : List Nat} {e : MCErr}
    (h : readString input = .error e) : e ≠ .outOfSourceIps := by
  unfold readString at h
  cases hv : readVarInt input with
  | error e2 =>
    rw [hv] at h
    have h1 : e2 = e := Except.error.inj h
    rcases readVarInt_error_cases hv with h2 | h2 <;> simp [← h1, h2]
  | ok p =>
    obtain ⟨len, rest⟩ := p
    rw [hv] at h
    dsimp only at h
    by_cases h1 : len < 0
    · rw [if_pos h1] at h
      have h2 := Except.error.inj h
      simp [← h2]
    · rw [if_neg h1] at h
      by_cases h2 : rest.length < len.toNat
      · rw [if_pos h2] at h
        have h3 := Except.error.inj h
        simp [← h3]
      · rw [if_neg h2] at h
        by_cases h3 : validUtf8 (rest.take len.toNat)
        · rw [if_pos h3] at h
          exact absurd h (by simp)
        · rw [if_neg h3] at h
          have h4 := Except.error.inj h
          simp [← h4]

theorem read_raw_error_ne_pool {input : List Nat} {e : MCErr}
    (h : read_raw_packet_id_and_data input = .error e) : e ≠ .outOfSourceIps := by
  unfold read_raw_packet_id_and_data at h
  cases hv : readVarInt input with
  | error e2 =>
    rw [hv] at h
    have h1 : e2 = e := Except.error.inj h
    rcases readVarInt_error_cases hv with h2 | h2 <;> simp [← h1, h2]
  | ok p =>
    obtain ⟨size, rest⟩ := p
    rw [hv] at h
    dsimp only at h
    by_cases hbig : 1024 * 1024 * 8 < size
    · rw [if_pos hbig] at h
      have h1 := Except.error.inj h
      simp [← h1]
    · rw [if_neg hbig] at h
      by_cases hlen : rest.length < intToPat 64 size
      · rw [if_pos hlen] at h
        have h1 := Except.error.inj h
        simp [← h1]
      · rw [if_neg hlen] at h
        cases hv2 : readVarInt (rest.take (intToPat 64 size)) with
        | error e3 =>
          rw [hv2] at h
          have h1 : e3 = e := Except.error.inj h
          rcases readVarInt_error_cases hv2 with h2 | h2 <;> simp [← h1, h2]
        | ok q =>
          obtain ⟨pid, payload⟩ := q
          rw [hv2] at h
          exact absurd h (by simp)

theorem clientHandshake_from_cursor_error_ne_pool {data : List Nat} {e : MCErr}
    (h : ClientHandshake.from_cursor data = .error e) : e ≠ .outOfSourceIps := by
  unfold ClientHandshake.from_cursor at h
  cases hv : readVarInt data with
  | error e2 =>
    rw [hv] at h
    have h1 : e2 = e := Except.error.inj h
    rcases readVarInt_error_cases hv with h2 | h2 <;> simp [← h1, h2]
  | ok p =>
    obtain ⟨pv, r1⟩ := p
    rw [hv] at h
    dsimp only at h
    cases hs : readString r1 with
    | error e2 =>
      rw [hs] at h
      have h1 : e2 = e := Except.error.inj h
      rw [← h1]
      exact readString_error_ne_pool hs
    | ok q =>
      obtain ⟨addr, r2⟩ := q
      rw [hs] at h
      dsimp only at h
      by_cases h2 : r2.length < 2
      · rw [if_pos h2] at h
        have h1 := Except.error.inj h
        simp [← h1]
      · rw [if_neg h2] at h
        cases hv2 : readVarInt (r2.drop 2) with
        | error e3 =>
          rw [hv2] at h
          have h1 : e3 = e := Except.error.inj h
          rcases readVarInt_error_cases hv2 with h3 | h3 <;> simp [← h1, h3]
        | ok q2 =>
          obtain ⟨next, r3⟩ := q2
          rw [hv2] at h
          exact absurd h (by simp)

theorem clientHandshake_read_with_header_error_ne_pool {input : List Nat}
    {e : MCErr} (h : ClientHandshake.read_with_header input = .error e) :
    e ≠ .outOfSourceIps := by
  unfold ClientHandshake.read_with_header at h
  cases hr : read_raw_packet_id_and_data input with
  | error e2 =>
    rw [hr] at h
    have h1 : e2 = e := Except.error.inj h
    rw [← h1]
    exact read_raw_error_ne_pool hr
  | ok p =>
    obtain ⟨⟨pid, pdata⟩, rest⟩ := p
    rw [hr] at h
    dsimp only at h
    by_cases hp : pid ≠ 0
    · rw [if_pos hp] at h
      have h1 := Except.error.inj h
      simp [← h1]
    · rw [if_neg hp] at h
      cases hc : ClientHandshake.from_cursor pdata with
      | error e2 =>
        rw [hc] at h
        have h1 : e2 = e := Except.error.inj h
        rw [← h1]
        exact clientHandshake_from_cursor_error_ne_pool hc
      | ok q =>
        obtain ⟨hs, r⟩ := q
        rw [hc] at h
        exact absurd h (by simp)

theorem onlyName_from_cursor_error_ne_pool {data : List Nat} {e : MCErr}
    (h : ClientLoginStartOnlyName.from_cursor data = .error e) :
    e ≠ .outOfSourceIps := by
  unfold ClientLoginStartOnlyName.from_cursor at h
  cases hs : readString data with
  | error e2 =>
    rw [hs] at h
    have h1 : e2 = e := Except.error.inj h
    rw [← h1]
    exact readString_error_ne_pool hs
  | ok q =>
    obtain ⟨n, r⟩ := q
    rw [hs] at h
    exact absurd h (by simp)

theorem buildLoginForward_error_ne_pool {pv : Int} {targetHost : List Nat}
    {targetPort : Nat} {aliasHost : Option (List Nat)} {aliasPort : Option Nat}
    {client : List Nat} {e : MCErr}
    (h : buildLoginForward pv targetHost targetPort aliasHost aliasPort client =
      .error e) : e ≠ .outOfSourceIps := by
  unfold buildLoginForward at h
  cases hw : ClientHandshake.write_to
      { protocol_version := pv, next_state := 2,
        server_port := aliasPort.getD targetPort,
        server_address := aliasHost.getD targetHost } with
  | error e2 =>
    rw [hw] at h
    have h1 : e2 = e := Except.error.inj h
    have h2 := clientHandshake_write_to_error_eq hw
    simp [← h1, h2]
  | ok hsBody =>
    rw [hw] at h
    dsimp only at h
    cases hf : write_with_header 0 hsBody with
    | error e2 =>
      rw [hf] at h
      have h1 : e2 = e := Except.error.inj h
      have h2 := write_with_header_error_eq hf
      simp [← h1, h2]
    | ok hsFrame =>
      rw [hf] at h
      dsimp only at h
      cases hr : read_raw_packet_id_and_data client with
      | error e2 =>
        rw [hr] at h
        have h1 : e2 = e := Except.error.inj h
        rw [← h1]
        exact read_raw_error_ne_pool hr
      | ok p =>
        obtain ⟨⟨pid, pdata⟩, rest⟩ := p
        rw [hr] at h
        dsimp only at h
        by_cases hp : pid ≠ 0
        · rw [if_pos hp] at h
          have h1 := Except.error.inj h
          simp [← h1]
        · rw [if_neg hp] at h
          cases hc : ClientLoginStart.from_cursor pdata with
          | ok v =>
            rw [hc] at h
            exact absurd h (by simp)
          | error e2 =>
            rw [hc] at h
            dsimp only at h
            cases ho : ClientLoginStartOnlyName.from_cursor pdata with
            | error e3 =>
              rw [ho] at h
              have h1 : e3 = e := Except.error.inj h
              rw [← h1]
              exact onlyName_from_cursor_error_ne_pool ho
            | ok v =>
              rw [ho] at h
              exact absurd h (by simp)

theorem disconnectFrame_error_eq {reason : Json} {e : MCErr}
    (h : serverLoginDisconnectFrame reason = .error e) : e = .intOverflow := by
  unfold serverLoginDisconnectFrame at h
  cases hs : writeString (strBytes (jsonSerialize reason)) with
  | error e2 =>
    rw [hs] at h
    have h1 : e2 = e := Except.error.inj h
    rw [← h1]
    exact writeString_error_eq hs
  | ok body =>
    rw [hs] at h
    exact write_with_header_error_eq h

theorem get_available_error_eq {pool : SourcePool} {needV4 needV6 : Bool}
    {e : MCErr} (h : get_available_source_ip pool needV4 needV6 = .error e) :
    e = .outOfSourceIps := by
  unfold get_available_source_ip at h
  by_cases hemp : pool.isEmpty
  · rw [if_pos hemp] at h
    exact absurd h (by simp)
  · rw [if_neg hemp] at h
    cases hs : scanSources pool needV4 needV6 with
    | some idx =>
      rw [hs] at h
      exact absurd h (by simp)
    | none =>
      rw [hs] at h
      exact (Except.error.inj h).symm

/-- C8: on the login path, the pool-exhaustion error — and no other
per-connection error class of this portion — causes a `ServerLoginDisconnect`
frame carrying the JSON reason to be written to the client, and the
connection is then closed with that same error; every other outcome writes
nothing back to the client here. -/
theorem login_disconnect_on_pool_exhaustion :
    ∀ (client : List Nat) (pool : SourcePool) (haveV4 haveV6 : Bool)
      (targetHost : List Nat) (targetPort : Nat)
      (aliasHost : Option (List Nat)) (aliasPort : Option Nat),
      ((handle_client_login client pool haveV4 haveV6 targetHost targetPort
          aliasHost aliasPort).2 = .error .outOfSourceIps →
        ∃ frame, serverLoginDisconnectFrame
            (.obj [("text", .str ("StupidMCProxy Error: " ++
              errDisplay .outOfSourceIps))]) = .ok frame ∧
          (handle_client_login client pool haveV4 haveV6 targetHost targetPort
            aliasHost aliasPort).1 = frame) ∧
      (∀ e, (handle_client_login client pool haveV4 haveV6 targetHost
          targetPort aliasHost aliasPort).2 = .error e →
        e ≠ .outOfSourceIps →
        (handle_client_login client pool haveV4 haveV6 targetHost targetPort
          aliasHost aliasPort).1 = []) ∧
      (∀ o, (handle_client_login client pool haveV4 haveV6 targetHost
          targetPort aliasHost aliasPort).2 = .ok o →
        (handle_client_login client pool haveV4 haveV6 targetHost targetPort
          aliasHost aliasPort).1 = []) := by
  intro client pool haveV4 haveV6 targetHost targetPort aliasHost aliasPort
  unfold handle_client_login
  cases hh : ClientHandshake.read_with_header client with
  | error e =>
    dsimp only
    refine ⟨fun habs => ?_, fun e2 h2 hne => rfl, fun o ho => rfl⟩
    exact absurd (Except.error.inj habs)
      (clientHandshake_read_with_header_error_ne_pool hh)
  | ok p =>
    obtain ⟨hs, rest⟩ := p
    dsimp only
    by_cases h1 : hs.next_state = 1
    · rw [if_pos h1]
      exact ⟨fun habs => absurd habs (by simp), fun e2 h2 hne => rfl,
        fun o ho => rfl⟩
    · rw [if_neg h1]
      by_cases h2 : hs.next_state ≠ 2
      · rw [if_pos h2]
        refine ⟨fun habs => ?_, fun e2 h2b hne => rfl, fun o ho => rfl⟩
        have h3 := Except.error.inj habs
        simp at h3
      · rw [if_neg h2]
        cases hg : get_available_source_ip pool haveV4 haveV6 with
        | error e =>
          dsimp only
          have he := get_available_error_eq hg
          subst he
          cases hd : serverLoginDisconnectFrame
              (.obj [("text", .str ("StupidMCProxy Error: " ++
                errDisplay .outOfSourceIps))]) with
          | ok frame =>
            dsimp only
            refine ⟨fun _ => ⟨frame, rfl, rfl⟩, fun e2 h2b hne => ?_,
              fun o ho => absurd ho (by simp)⟩
            exact absurd (Except.error.inj h2b).symm hne
          | error e2 =>
            dsimp only
            refine ⟨fun habs => ?_, fun e3 h3 hne => rfl, fun o ho => rfl⟩
            have h3 : e2 = MCErr.outOfSourceIps := Except.error.inj habs
            have h4 := disconnectFrame_error_eq hd
            rw [h4] at h3
            simp at h3
        | ok acquired =>
          dsimp only
          cases hb : buildLoginForward hs.protocol_version targetHost
              targetPort aliasHost aliasPort rest with
          | error e =>
            dsimp only
            refine ⟨fun habs => ?_, fun e2 hx hne => rfl, fun o ho => rfl⟩
            exact absurd (Except.error.inj habs)
              (buildLoginForward_error_ne_pool hb)
          | ok q =>
            obtain ⟨forward, rest2⟩ := q
            dsimp only
            exact ⟨fun habs => absurd habs (by simp), fun e2 hx hne => rfl,
              fun o ho => rfl⟩

theorem login_disconnect_on_pool_exhaustion_witness :
    ∃ frame, serverLoginDisconnectFrame
        (.obj [("text", .str ("StupidMCProxy Error: " ++
          errDisplay .outOfSourceIps))]) = .ok frame ∧
      (handle_client_login [7, 0, 1, 1, 97, 99, 221, 2] [(IpFam.v4, 2)]
        true false [97] 25565 none none).1 = frame :=
  (login_disconnect_on_pool_exhaustion [7, 0, 1, 1, 97, 99, 221, 2]
    [(IpFam.v4, 2)] true false [97] 25565 none none).1 (by decide)

example : VarInt.write 0 = [0x00] := by decide
example : VarInt.write 128 = [0x80, 0x01] := by decide
example : VarInt.write (-1) = [0xff, 0xff, 0xff, 0xff, 0x0f] := by decide
example : readVarInt [0xff, 0xff, 0xff, 0xff, 0x0f] = .ok (-1, []) := by decide
example : readVarInt [0x80, 0x80, 0x80, 0x80, 0x80, 0x01] = .error .varIntTooBig := by
  decide
example : readVarInt [0x80, 0x80, 0x80, 0x80, 0x80] = .error .eof := by decide
